import Mathlib

/-!
Verification of the asset-matching and review-state logic of the
AlternityDashboard application (src/App.tsx).

The development embeds the non-presentational core of the program:

* the chapter-identifier extraction used by matchPromptToImage
  (the regular expression chap[_ ]*(digits)_(digits), applied after the
  filename is cleaned of every case-insensitive occurrence of _compressed
  and of one trailing image extension, the whole in lower case);
* the prompt matcher matchPromptToImage itself;
* the scene analyzer (detectSettingFromPrompt, detectCharactersFromPrompt);
* the review ledger state and its handlers (approve, regenerate, prompt
  edit and reset, image import, JSON prompt-dataset load).

JavaScript strings are modelled as lists of characters.  The source applies
toLowerCase after the two case-insensitive replacements; because each
replacement matches exactly where its lower-cased pattern matches the
lower-cased text, lowering first and then removing the markers literally is
the same function, and that is the order used here.
-/

/-- The character class of the separator set [_\s] used by the regex between
the chap keyword and the first integer: underscore or JavaScript whitespace
(the ASCII part of \s). -/
def isSepChar (c : Char) : Bool :=
  c = '_' || c = ' ' || c = '\t' || c = '\n' || c = '\r' || c = '\x0b' || c = '\x0c'

/-- JavaScript whitespace as trimmed by String.prototype.trim (ASCII part). -/
def isJsSpace (c : Char) : Bool :=
  c = ' ' || c = '\t' || c = '\n' || c = '\r' || c = '\x0b' || c = '\x0c'

/-- String.prototype.trim on a character list. -/
def trimJs (l : List Char) : List Char :=
  ((l.dropWhile isJsSpace).reverse.dropWhile isJsSpace).reverse

/-- Lower-casing, character by character (String.prototype.toLowerCase on the
ASCII range relevant here). -/
def toLowerList (l : List Char) : List Char :=
  l.map Char.toLower

/-- The marker removed by .replace(/_compressed/gi, ''), lower-cased. -/
def compressedMarker : List Char :=
  ['_', 'c', 'o', 'm', 'p', 'r', 'e', 's', 's', 'e', 'd']

/-- One left-to-right pass removing every occurrence of _compressed, exactly
as String.prototype.replace with the g flag: after a removal the scan resumes
after the removed occurrence, never inside text already produced.  The fuel
argument (initially the length of the list) makes the recursion structural;
it never runs out because each step consumes at least one character. -/
def stripCompressedAux : Nat → List Char → List Char
  | 0, l => l
  | _ + 1, [] => []
  | fuel + 1, c :: rest =>
    if compressedMarker.isPrefixOf (c :: rest) then
      stripCompressedAux fuel ((c :: rest).drop compressedMarker.length)
    else
      c :: stripCompressedAux fuel rest

def stripCompressed (l : List Char) : List Char :=
  stripCompressedAux l.length l

/-- .replace(/\.(png|jpg|jpeg|webp)$/i, '') on the lower-cased name: removes
one trailing image extension.  The four suffixes end in pairwise distinct
character triples, so at most one of them can be a suffix and the order of
the tests does not matter. -/
def stripExt (l : List Char) : List Char :=
  if ".png".data.isSuffixOf l then l.take (l.length - 4)
  else if ".jpg".data.isSuffixOf l then l.take (l.length - 4)
  else if ".jpeg".data.isSuffixOf l then l.take (l.length - 5)
  else if ".webp".data.isSuffixOf l then l.take (l.length - 5)
  else l

/-- cleanImageName of matchPromptToImage: remove the _compressed markers and
the trailing extension case-insensitively, lower-case the result. -/
def cleanImageName (s : String) : List Char :=
  stripExt (stripCompressed (toLowerList s.data))

/-- The regex step chap[_\s]*(\d+)_(\d+) after the literal chap has been
consumed: a greedy run of separators, a first maximal digit run, a literal
underscore, a second maximal digit run.  Greedy matching with backtracking
collapses to maximal runs here because no shorter separator run can expose a
digit and no shorter digit run can expose an underscore. -/
def matchAfterChap (r : List Char) : Option (List Char × List Char) :=
  if (r.dropWhile isSepChar).takeWhile Char.isDigit = [] then none
  else if ((r.dropWhile isSepChar).dropWhile Char.isDigit).head? = some '_' then
    if (((r.dropWhile isSepChar).dropWhile Char.isDigit).tail).takeWhile Char.isDigit = [] then
      none
    else
      some ((r.dropWhile isSepChar).takeWhile Char.isDigit,
            (((r.dropWhile isSepChar).dropWhile Char.isDigit).tail).takeWhile Char.isDigit)
  else none

/-- The attempt to match chap[_\s]*(\d+)_(\d+) at one fixed position: the
next four characters must be the literal chap, then matchAfterChap. -/
def matchChapAt (l : List Char) : Option (List Char × List Char) :=
  if l.take 4 = ['c', 'h', 'a', 'p'] then matchAfterChap (l.drop 4) else none

/-- String.prototype.match without the g flag: the match at the leftmost
position where one exists, scanning left to right. -/
def findChap : List Char → Option (List Char × List Char)
  | [] => none
  | c :: rest =>
    match matchChapAt (c :: rest) with
    | some r => some r
    | none => findChap rest

/-- One record of the prompt dataset, shape { outputAi: string }. -/
structure PromptEntry where
  outputAi : String
  deriving DecidableEq

/-- The position of the first occurrence of the delimiter, as
String.prototype.split sees it: some (before, after) when the list contains
two adjacent bars, none otherwise. -/
def breakOnBars : List Char → Option (List Char × List Char)
  | [] => none
  | c :: rest =>
    if c = '|' then
      match rest with
      | [] => none
      | c2 :: rest2 =>
        if c2 = '|' then some ([], rest2)
        else
          match breakOnBars rest with
          | some p => some (c :: p.1, p.2)
          | none => none
    else
      match breakOnBars rest with
      | some p => some (c :: p.1, p.2)
      | none => none

/-- parts[0] and parts[1] of outputAi.split('||'): the text before the first
delimiter and the text between the first delimiter and the second (or the
end).  none when the delimiter is absent, in which case the source skips the
record. -/
def splitParts (s : String) : Option (List Char × List Char) :=
  match breakOnBars s.data with
  | none => none
  | some (pre, rest) =>
    match breakOnBars rest with
    | some (mid, _) => some (pre, mid)
    | none => some (pre, rest)

/-- The loop body of matchPromptToImage over the prompt records: skip a
record without the delimiter or without a chapter pattern in its
post-delimiter segment; on the first record whose captured digit pair equals
the image's, return the trimmed pre-delimiter segment. -/
def findFirstMatch (imgChapter : List Char × List Char) :
    List PromptEntry → Option String
  | [] => none
  | e :: rest =>
    match splitParts e.outputAi with
    | none => findFirstMatch imgChapter rest
    | some (pre, post) =>
      match findChap (toLowerList (trimJs post)) with
      | none => findFirstMatch imgChapter rest
      | some jsonChapter =>
        if jsonChapter = imgChapter then some (String.mk (trimJs pre))
        else findFirstMatch imgChapter rest

/-- matchPromptToImage of src/App.tsx: clean the image name, extract its
chapter digits, scan the records in order.  The source compares the template
strings imgChapter and jsonChapter built as digits ++ "_" ++ digits; since
the captures contain only digits, equality of those strings is equality of
the two captured pairs, which is what the embedding compares. -/
def matchPromptToImage (imageName : String) (promptsArray : List PromptEntry) :
    Option String :=
  if promptsArray.isEmpty then none
  else
    match findChap (cleanImageName imageName) with
    | none => none
    | some imgChapter => findFirstMatch imgChapter promptsArray

-- Scene analyzer ------------------------------------------------------------

/-- s.includes(pat) on character lists. -/
def containsSub (l pat : List Char) : Bool :=
  match l with
  | [] => pat.isEmpty
  | c :: rest => pat.isPrefixOf (c :: rest) || containsSub rest pat

def strContains (s pat : String) : Bool :=
  containsSub s.data pat.data

def lowerStr (s : String) : String :=
  String.mk (toLowerList s.data)

/-- detectSettingFromPrompt of src/App.tsx. -/
def detectSettingFromPrompt (prompt : String) : String :=
  if prompt = "" then "generic"
  else
    if strContains (lowerStr prompt) "vip" then "hospital_vip"
    else if strContains (lowerStr prompt) "hospital"
         || strContains (lowerStr prompt) "rumah sakit" then "hospital_regular"
    else if strContains (lowerStr prompt) "living"
         || strContains (lowerStr prompt) "ruang tamu" then "apartment_living_room"
    else if strContains (lowerStr prompt) "bedroom"
         || strContains (lowerStr prompt) "kamar tidur" then "apartment_bedroom"
    else "generic"

structure Character where
  name : String
  outfit : String
  deriving DecidableEq

/-- The detectOutfit helper closed over the lower-cased prompt. -/
def detectOutfit (p : String) : String :=
  if strContains p "baju pasien" || strContains p "patient" then "patient"
  else if strContains p "formal" then "formal"
  else if strContains p "casual" then "casual"
  else if strContains p "santai" then "santai"
  else "default"

/-- detectCharactersFromPrompt of src/App.tsx: the four roster names are
tested in a fixed order and each present one is pushed with the shared
outfit, except Aruna who is always pushed with the default outfit. -/
def detectCharactersFromPrompt (prompt : String) : List Character :=
  if prompt = "" then []
  else
    (if strContains (lowerStr prompt) "mc" then
       [Character.mk "MC" (detectOutfit (lowerStr prompt))] else [])
    ++ (if strContains (lowerStr prompt) "raka" then
       [Character.mk "Raka" (detectOutfit (lowerStr prompt))] else [])
    ++ (if strContains (lowerStr prompt) "alina" then
       [Character.mk "Alina" (detectOutfit (lowerStr prompt))] else [])
    ++ (if strContains (lowerStr prompt) "aruna" then
       [Character.mk "Aruna" "default"] else [])

/-- The fixed roster in output order, each with the outfit the source would
assign it; detectCharactersFromPrompt returns exactly the present subset of
this list, in this order. -/
def characterRoster (p : String) : List Character :=
  [Character.mk "MC" (detectOutfit p), Character.mk "Raka" (detectOutfit p),
   Character.mk "Alina" (detectOutfit p), Character.mk "Aruna" "default"]

/-- Presence of a roster character: its lower-cased name occurs in the
lower-cased prompt. -/
def characterPresent (p : String) (c : Character) : Bool :=
  containsSub p.data (toLowerList c.name.data)

-- Review ledger state --------------------------------------------------------

inductive QCStatus
  | pending
  | approved
  | rejected
  deriving DecidableEq

inductive ViewTab
  | dashboard
  | qc
  | extraction
  | retry
  deriving DecidableEq

/-- One review item (interface QCImage of src; the opaque File handle is not
modelled, the object URL stands for the image bytes). -/
structure QCImage where
  id : Nat
  url : String
  oldUrl : Option String
  name : String
  prompt : String
  originalPrompt : String
  status : QCStatus
  deriving DecidableEq

/-- The App component state the handlers touch.  isRegenerating is set and
reset within one regeneration and is false again at every point the claims
speak about, so it is not carried. -/
structure AppState where
  currentView : ViewTab
  backendUrl : String
  images : List QCImage
  promptData : List PromptEntry
  qcIndex : Nat
  compareMode : Bool
  deriving DecidableEq

/-- updated[i] = f(updated[i]) on a copied array: identity when the index is
out of range (the handlers only run with a current item on screen). -/
def updateAt (l : List QCImage) (i : Nat) (f : QCImage → QCImage) : List QCImage :=
  match l.get? i with
  | some x => l.set i (f x)
  | none => l

/-- The Approve button: set the current item's status and advance the active
index when a next item exists. -/
def approveCurrent (s : AppState) : AppState :=
  { s with
    images := updateAt s.images s.qcIndex (fun img => { img with status := QCStatus.approved }),
    qcIndex := if s.qcIndex < s.images.length - 1 then s.qcIndex + 1 else s.qcIndex }

/-- A thumbnail click: select item i and leave compare mode. -/
def selectImage (s : AppState) (i : Nat) : AppState :=
  { s with qcIndex := i, compareMode := false }

/-- The prompt textarea onChange: overwrite the current item's prompt. -/
def editPrompt (s : AppState) (newText : String) : AppState :=
  { s with images := updateAt s.images s.qcIndex (fun img => { img with prompt := newText }) }

/-- The Reset Prompt button: restore the current item's prompt from its
originalPrompt. -/
def resetPrompt (s : AppState) : AppState :=
  { s with images := updateAt s.images s.qcIndex (fun img => { img with prompt := img.originalPrompt }) }

/-- handleRegenerate.  The awaited service call either completes (ok = true)
or throws (ok = false); only on completion is the item replaced, with the
old url kept in oldUrl, the url set to the new locator (in the demo build
the service result is stood in for by the current url) and the status reset
to pending; compare mode is switched on.  The catch path changes nothing. -/
def handleRegenerate (s : AppState) (ok : Bool) : AppState :=
  match s.images.get? s.qcIndex with
  | none => s
  | some current =>
    if s.backendUrl = "" then s
    else if ok then
      { s with
        images := s.images.set s.qcIndex
          { current with oldUrl := some current.url, url := current.url,
                         status := QCStatus.pending },
        compareMode := true }
    else s

def placeholderPrompt : String :=
  "Prompt will appear here once JSON is loaded..."

/-- The prompt a freshly imported image receives: its match, except that a
null or empty match falls back to the placeholder (the source applies the
JavaScript truthiness operator to the matched text). -/
def importedPrompt (pd : List PromptEntry) (name : String) : String :=
  match matchPromptToImage name pd with
  | some p => if p = "" then placeholderPrompt else p
  | none => placeholderPrompt

/-- One file handed to handleImageUpload, with the Date.now() reading the
source takes at that file's position of the map. -/
structure ImportFile where
  name : String
  url : String
  now : Nat
  deriving DecidableEq

def mkImage (pd : List PromptEntry) (f : ImportFile) (idx : Nat) : QCImage :=
  { id := f.now + idx, url := f.url, oldUrl := none, name := f.name,
    prompt := importedPrompt pd f.name,
    originalPrompt := importedPrompt pd f.name,
    status := QCStatus.pending }

def buildImages (pd : List PromptEntry) : List ImportFile → Nat → List QCImage
  | [], _ => []
  | f :: fs, idx => mkImage pd f idx :: buildImages pd fs (idx + 1)

/-- handleImageUpload: append the new batch in input order and switch to the
QC view. -/
def handleImageUpload (s : AppState) (files : List ImportFile) : AppState :=
  { s with images := s.images ++ buildImages s.promptData files 0,
           currentView := ViewTab.qc }

/-- The re-match applied to one existing image when a dataset loads: a truthy
match overwrites prompt and originalPrompt, anything else leaves the image
exactly as it is. -/
def remapImage (data : List PromptEntry) (img : QCImage) : QCImage :=
  match matchPromptToImage img.name data with
  | some p => if p = "" then img else { img with prompt := p, originalPrompt := p }
  | none => img

/-- handleJSONUpload.  Parsing the file is the host's JSON.parse and is
passed in as its outcome; the pair's second component is the alert text the
user sees. -/
def handleJSONUpload (s : AppState) (parsed : Except String (List PromptEntry)) :
    AppState × String :=
  match parsed with
  | Except.error _ => (s, "Invalid JSON file.")
  | Except.ok data =>
    ({ s with promptData := data, images := s.images.map (remapImage data) },
     "Successfully loaded prompt entries.")

-- Specification-side notions used to state the claims ------------------------

/-- The pattern the source's regex accepts at one position, stated
declaratively: the literal chap, a run of separator characters, a nonempty
digit run, one underscore, a nonempty digit run, and no further digit
immediately after (the captures are maximal). -/
def ChapPatternAt (l : List Char) (d1 d2 : List Char) : Prop :=
  ∃ seps rest : List Char,
    l = ['c', 'h', 'a', 'p'] ++ (seps ++ (d1 ++ '_' :: (d2 ++ rest)))
    ∧ (∀ c ∈ seps, isSepChar c = true)
    ∧ d1 ≠ [] ∧ (∀ c ∈ d1, c.isDigit = true)
    ∧ d2 ≠ [] ∧ (∀ c ∈ d2, c.isDigit = true)
    ∧ (∀ c, rest.head? = some c → c.isDigit = false)

/-- Modelled from the spec: the pattern the claim describes, in which the two
integers may be joined by any separator style, not only a single underscore:
the literal chap, a possibly empty separator run, a nonempty digit run, a
nonempty separator run, a nonempty digit run. -/
def SpecChapPatternAt (l : List Char) (d1 d2 : List Char) : Prop :=
  ∃ seps1 seps2 rest : List Char,
    l = ['c', 'h', 'a', 'p'] ++ (seps1 ++ (d1 ++ (seps2 ++ (d2 ++ rest))))
    ∧ (∀ c ∈ seps1, isSepChar c = true)
    ∧ (∀ c ∈ seps2, isSepChar c = true) ∧ seps2 ≠ []
    ∧ d1 ≠ [] ∧ (∀ c ∈ d1, c.isDigit = true)
    ∧ d2 ≠ [] ∧ (∀ c ∈ d2, c.isDigit = true)

/-- The value of a captured digit run as the integer it denotes. -/
def digitsToNat (l : List Char) : Nat :=
  l.foldl (fun acc c => 10 * acc + (c.toNat - '0'.toNat)) 0

/-- The filename's chapter identifier as a pair of integers, as the
specification's ChapterIdentifier has it. -/
def imageNumericId (name : String) : Option (Nat × Nat) :=
  (findChap (cleanImageName name)).map (fun p => (digitsToNat p.1, digitsToNat p.2))

/-- A prompt record's chapter identifier as a pair of integers. -/
def recordNumericId (e : PromptEntry) : Option (Nat × Nat) :=
  match splitParts e.outputAi with
  | none => none
  | some (_, post) =>
    (findChap (toLowerList (trimJs post))).map
      (fun p => (digitsToNat p.1, digitsToNat p.2))

/-- Whether a record carries the delimiter and a chapter tag equal (as the
source compares, digit strings) to the given image identifier. -/
def recordMatches (imgChapter : List Char × List Char) (e : PromptEntry) : Bool :=
  match splitParts e.outputAi with
  | none => false
  | some (_, post) =>
    match findChap (toLowerList (trimJs post)) with
    | none => false
    | some jsonChapter => jsonChapter = imgChapter

/-- The trimmed pre-delimiter segment of a record (its prompt text). -/
def recordText (e : PromptEntry) : String :=
  match splitParts e.outputAi with
  | none => ""
  | some (pre, _) => String.mk (trimJs pre)

-- Concrete scenarios used by closed witnesses and counterexamples ------------

def imgA : QCImage :=
  { id := 1, url := "blob:a", oldUrl := none, name := "scene_chap_1_2.png",
    prompt := "MC in formal", originalPrompt := "MC in formal",
    status := QCStatus.pending }

def imgB : QCImage :=
  { id := 2, url := "blob:b", oldUrl := none, name := "scene_chap_1_3.png",
    prompt := "Raka casual", originalPrompt := "Raka casual",
    status := QCStatus.approved }

def baseState : AppState :=
  { currentView := ViewTab.qc, backendUrl := "http://localhost:5000",
    images := [imgA, imgB], promptData := [], qcIndex := 0, compareMode := false }

def emptyState : AppState :=
  { currentView := ViewTab.dashboard, backendUrl := "http://localhost:5000",
    images := [], promptData := [], qcIndex := 0, compareMode := false }

/-- Two import batches whose Date.now() readings are nondecreasing yet whose
timestamp-plus-index ids collide across the batches. -/
def cexBatch1 : List ImportFile :=
  [{ name := "a.png", url := "blob:a1", now := 100 },
   { name := "b.png", url := "blob:b1", now := 100 }]

def cexBatch2 : List ImportFile :=
  [{ name := "c.png", url := "blob:c1", now := 101 }]

def importFilesW : List ImportFile :=
  [{ name := "x.png", url := "blob:x", now := 10 },
   { name := "y.png", url := "blob:y", now := 10 }]

example : findChap (cleanImageName "scene_chap_1_2.png") = some (['1'], ['2']) := by decide
example : findChap (cleanImageName "Scene_Chap 10_23_compressed.JPG") = some (['1', '0'], ['2', '3']) := by decide
example : findChap (cleanImageName "unrelated.png") = none := by decide
example : matchPromptToImage "scene_chap_1_2.png" [⟨"A hides || Chap 1_2"⟩, ⟨"B arrives || Chap_1_3"⟩] = some "A hides" := by decide
example : matchPromptToImage "scene_chap_1_3.png" [⟨"A hides || Chap 1_2"⟩, ⟨"B arrives || Chap_1_3"⟩] = some "B arrives" := by decide
example : matchPromptToImage "unrelated.png" [⟨"A hides || Chap 1_2"⟩] = none := by decide

-- General list lemmas ---------------------------------------------------------

theorem qcGet?_some_lt {α : Type} :
    ∀ (l : List α) (i : Nat) (x : α), l.get? i = some x → i < l.length := by
  intro l
  induction l with
  | nil => intro i x h; cases h
  | cons a t ih =>
    intro i x h
    cases i with
    | zero => exact Nat.succ_pos _
    | succ k => exact Nat.succ_lt_succ (ih k x h)

theorem qcGet?_set_self {α : Type} :
    ∀ (l : List α) (i : Nat) (x : α), i < l.length → (l.set i x).get? i = some x := by
  intro l
  induction l with
  | nil => intro i x h; cases h
  | cons a t ih =>
    intro i x h
    cases i with
    | zero => rfl
    | succ k => exact ih k x (Nat.lt_of_succ_lt_succ h)

theorem qcGet?_set_ne {α : Type} :
    ∀ (l : List α) (i j : Nat) (x : α), i ≠ j → (l.set i x).get? j = l.get? j := by
  intro l
  induction l with
  | nil => intro i j x _; rfl
  | cons a t ih =>
    intro i j x hij
    cases i with
    | zero =>
      cases j with
      | zero => exact absurd rfl hij
      | succ m => rfl
    | succ k =>
      cases j with
      | zero => rfl
      | succ m => exact ih k m x (fun h => hij (congrArg Nat.succ h))

theorem qcSet_of_get? {α : Type} :
    ∀ (l : List α) (i : Nat) (x : α), l.get? i = some x → l.set i x = l := by
  intro l
  induction l with
  | nil => intro i x h; cases h
  | cons a t ih =>
    intro i x h
    cases i with
    | zero => cases h; rfl
    | succ k => exact congrArg (a :: ·) (ih k x h)

theorem qcSet_set {α : Type} :
    ∀ (l : List α) (i : Nat) (x y : α), (l.set i x).set i y = l.set i y := by
  intro l
  induction l with
  | nil => intro i x y; rfl
  | cons a t ih =>
    intro i x y
    cases i with
    | zero => rfl
    | succ k => exact congrArg (a :: ·) (ih k x y)

theorem qcLength_set {α : Type} :
    ∀ (l : List α) (i : Nat) (x : α), (l.set i x).length = l.length := by
  intro l
  induction l with
  | nil => intro i x; rfl
  | cons a t ih =>
    intro i x
    cases i with
    | zero => rfl
    | succ k => exact congrArg Nat.succ (ih k x)

theorem qcGet?_map {α β : Type} (f : α → β) :
    ∀ (l : List α) (i : Nat), (l.map f).get? i = (l.get? i).map f := by
  intro l
  induction l with
  | nil => intro i; rfl
  | cons a t ih =>
    intro i
    cases i with
    | zero => rfl
    | succ k => exact ih k

theorem updateAt_eq_of_get?_none (l : List QCImage) (i : Nat) (f : QCImage → QCImage)
    (h : l.get? i = none) : updateAt l i f = l := by
  unfold updateAt
  rw [h]

theorem updateAt_eq_of_get?_some (l : List QCImage) (i : Nat) (f : QCImage → QCImage)
    (x : QCImage) (h : l.get? i = some x) : updateAt l i f = l.set i (f x) := by
  unfold updateAt
  rw [h]

theorem updateAt_get?_self (l : List QCImage) (i : Nat) (f : QCImage → QCImage) :
    (updateAt l i f).get? i = (l.get? i).map f := by
  cases h : l.get? i with
  | none => rw [updateAt_eq_of_get?_none l i f h, h]; rfl
  | some x =>
    rw [updateAt_eq_of_get?_some l i f x h,
        qcGet?_set_self _ _ _ (qcGet?_some_lt _ _ _ h)]
    rfl

theorem updateAt_length (l : List QCImage) (i : Nat) (f : QCImage → QCImage) :
    (updateAt l i f).length = l.length := by
  unfold updateAt
  cases h : l.get? i with
  | none => rfl
  | some x => exact qcLength_set _ _ _

theorem updateAt_updateAt (l : List QCImage) (i : Nat) (f : QCImage → QCImage)
    (hf : ∀ x, f (f x) = f x) : updateAt (updateAt l i f) i f = updateAt l i f := by
  cases h : l.get? i with
  | none => rw [updateAt_eq_of_get?_none l i f h, updateAt_eq_of_get?_none l i f h]
  | some x =>
    have h1 := updateAt_eq_of_get?_some l i f x h
    have h2 : (l.set i (f x)).get? i = some (f x) :=
      qcGet?_set_self _ _ _ (qcGet?_some_lt _ _ _ h)
    rw [h1, updateAt_eq_of_get?_some _ _ _ _ h2, qcSet_set, hf]

theorem qcTakeWhile_append_dropWhile {α : Type} (p : α → Bool) :
    ∀ l : List α, l.takeWhile p ++ l.dropWhile p = l := by
  intro l
  induction l with
  | nil => rfl
  | cons a t ih =>
    cases hpa : p a with
    | true => simp [List.takeWhile_cons, List.dropWhile_cons, hpa, ih]
    | false => simp [List.takeWhile_cons, List.dropWhile_cons, hpa]

theorem qcMem_takeWhile {α : Type} (p : α → Bool) :
    ∀ (l : List α) (x : α), x ∈ l.takeWhile p → p x = true := by
  intro l
  induction l with
  | nil => intro x h; cases h
  | cons a t ih =>
    intro x h
    cases hpa : p a with
    | true =>
      rw [List.takeWhile_cons, hpa] at h
      rcases List.mem_cons.mp h with h | h
      · exact h ▸ hpa
      · exact ih x h
    | false => rw [List.takeWhile_cons, hpa] at h; cases h

theorem qcHead?_dropWhile {α : Type} (p : α → Bool) :
    ∀ (l : List α) (c : α), (l.dropWhile p).head? = some c → p c = false := by
  intro l
  induction l with
  | nil => intro c h; cases h
  | cons a t ih =>
    intro c h
    cases hpa : p a with
    | true => rw [List.dropWhile_cons, hpa] at h; exact ih c h
    | false =>
      rw [List.dropWhile_cons, hpa] at h
      cases h
      exact hpa

theorem qcDropWhile_append_all {α : Type} (p : α → Bool) :
    ∀ (s t : List α), (∀ x ∈ s, p x = true) → (s ++ t).dropWhile p = t.dropWhile p := by
  intro s
  induction s with
  | nil => intro t _; rfl
  | cons a u ih =>
    intro t hall
    rw [List.cons_append, List.dropWhile_cons, hall a (List.mem_cons_self a u)]
    exact ih t (fun x hx => hall x (List.mem_cons_of_mem a hx))

theorem qcTakeWhile_append_stop {α : Type} (p : α → Bool) :
    ∀ (s t : List α), (∀ x ∈ s, p x = true) →
      (∀ c, t.head? = some c → p c = false) → (s ++ t).takeWhile p = s := by
  intro s
  induction s with
  | nil =>
    intro t _ hhd
    cases t with
    | nil => rfl
    | cons c u =>
      simp [List.takeWhile_cons, hhd c rfl]
  | cons a u ih =>
    intro t hall hhd
    rw [List.cons_append, List.takeWhile_cons, hall a (List.mem_cons_self a u)]
    simp [ih t (fun x hx => hall x (List.mem_cons_of_mem a hx)) hhd]

theorem qcDropWhile_append_stop {α : Type} (p : α → Bool) :
    ∀ (s t : List α), (∀ x ∈ s, p x = true) →
      (∀ c, t.head? = some c → p c = false) → (s ++ t).dropWhile p = t := by
  intro s
  induction s with
  | nil =>
    intro t _ hhd
    cases t with
    | nil => rfl
    | cons c u =>
      simp [List.dropWhile_cons, hhd c rfl]
  | cons a u ih =>
    intro t hall hhd
    rw [List.cons_append, List.dropWhile_cons, hall a (List.mem_cons_self a u)]
    simp [ih t (fun x hx => hall x (List.mem_cons_of_mem a hx)) hhd]

-- Correctness of the identifier extractor ------------------------------------

theorem digit_not_sep (c : Char) (h : c.isDigit = true) : isSepChar c = false := by
  cases hs : isSepChar c with
  | false => rfl
  | true =>
    exfalso
    unfold isSepChar at hs
    simp only [Bool.or_eq_true, decide_eq_true_eq] at hs
    rcases hs with ((((((h1 | h1) | h1) | h1) | h1) | h1) | h1) <;>
      (subst h1; exact absurd h (by decide))

theorem chap_take4 (t : List Char) :
    (['c', 'h', 'a', 'p'] ++ t).take 4 = ['c', 'h', 'a', 'p'] := rfl

theorem chap_drop4 (t : List Char) : (['c', 'h', 'a', 'p'] ++ t).drop 4 = t := rfl

theorem matchAfterChap_some_iff (r d1 d2 : List Char) :
    matchAfterChap r = some (d1, d2) ↔
      ∃ seps rest : List Char,
        r = seps ++ (d1 ++ '_' :: (d2 ++ rest))
        ∧ (∀ c ∈ seps, isSepChar c = true)
        ∧ d1 ≠ [] ∧ (∀ c ∈ d1, c.isDigit = true)
        ∧ d2 ≠ [] ∧ (∀ c ∈ d2, c.isDigit = true)
        ∧ (∀ c, rest.head? = some c → c.isDigit = false) := by
  constructor
  · intro h
    unfold matchAfterChap at h
    by_cases h1 : (r.dropWhile isSepChar).takeWhile Char.isDigit = []
    · rw [if_pos h1] at h; cases h
    · rw [if_neg h1] at h
      by_cases hu : ((r.dropWhile isSepChar).dropWhile Char.isDigit).head? = some '_'
      · rw [if_pos hu] at h
        by_cases h2 :
            (((r.dropWhile isSepChar).dropWhile Char.isDigit).tail).takeWhile Char.isDigit = []
        · rw [if_pos h2] at h; cases h
        · rw [if_neg h2] at h
          simp only [Option.some.injEq, Prod.mk.injEq] at h
          obtain ⟨hd1, hd2⟩ := h
          subst hd1; subst hd2
          have hB : (r.dropWhile isSepChar).dropWhile Char.isDigit
              = '_' :: ((r.dropWhile isSepChar).dropWhile Char.isDigit).tail := by
            cases hBB : (r.dropWhile isSepChar).dropWhile Char.isDigit with
            | nil => rw [hBB] at hu; simp at hu
            | cons c rest3 =>
              rw [hBB] at hu
              simp only [List.head?_cons, Option.some.injEq] at hu
              rw [hu]
              rfl
          refine ⟨r.takeWhile isSepChar,
            (((r.dropWhile isSepChar).dropWhile Char.isDigit).tail).dropWhile Char.isDigit,
            ?_,
            fun x hx => qcMem_takeWhile isSepChar r x hx, h1,
            fun x hx => qcMem_takeWhile Char.isDigit _ x hx, h2,
            fun x hx => qcMem_takeWhile Char.isDigit _ x hx,
            fun x hx => qcHead?_dropWhile Char.isDigit _ x hx⟩
          have e3 := qcTakeWhile_append_dropWhile Char.isDigit
            (((r.dropWhile isSepChar).dropWhile Char.isDigit).tail)
          rw [e3, ← hB]
          have e2 := qcTakeWhile_append_dropWhile Char.isDigit (r.dropWhile isSepChar)
          rw [e2]
          exact (qcTakeWhile_append_dropWhile isSepChar r).symm
      · rw [if_neg hu] at h; cases h
  · rintro ⟨seps, rest, heq, hseps, hd1ne, hd1dig, hd2ne, hd2dig, hrest⟩
    subst heq
    have hhd1 : ∀ c, (d1 ++ '_' :: (d2 ++ rest)).head? = some c → isSepChar c = false := by
      intro c hc
      cases d1 with
      | nil => exact absurd rfl hd1ne
      | cons x d1t =>
        rw [List.cons_append] at hc
        simp only [List.head?_cons, Option.some.injEq] at hc
        subst hc
        exact digit_not_sep x (hd1dig x (List.mem_cons_self x d1t))
    have hhdu : ∀ c : Char, ('_' :: (d2 ++ rest)).head? = some c → c.isDigit = false := by
      intro c hc
      simp only [List.head?_cons, Option.some.injEq] at hc
      subst hc
      decide
    have c1 : (seps ++ (d1 ++ '_' :: (d2 ++ rest))).dropWhile isSepChar
        = d1 ++ '_' :: (d2 ++ rest) :=
      qcDropWhile_append_stop isSepChar seps _ hseps hhd1
    have c2 : (d1 ++ '_' :: (d2 ++ rest)).takeWhile Char.isDigit = d1 :=
      qcTakeWhile_append_stop Char.isDigit d1 _ hd1dig hhdu
    have c3 : (d1 ++ '_' :: (d2 ++ rest)).dropWhile Char.isDigit = '_' :: (d2 ++ rest) :=
      qcDropWhile_append_stop Char.isDigit d1 _ hd1dig hhdu
    have c4 : (d2 ++ rest).takeWhile Char.isDigit = d2 :=
      qcTakeWhile_append_stop Char.isDigit d2 rest hd2dig hrest
    unfold matchAfterChap
    rw [c1, c2, c3]
    rw [if_neg hd1ne]
    rw [List.head?_cons, List.tail_cons, if_pos rfl, c4, if_neg hd2ne]

theorem matchChapAt_some_iff (l d1 d2 : List Char) :
    matchChapAt l = some (d1, d2) ↔ ChapPatternAt l d1 d2 := by
  unfold matchChapAt ChapPatternAt
  by_cases h4 : l.take 4 = ['c', 'h', 'a', 'p']
  · rw [if_pos h4, matchAfterChap_some_iff]
    have hl : l = ['c', 'h', 'a', 'p'] ++ l.drop 4 := by
      conv_lhs => rw [← List.take_append_drop 4 l]
      rw [h4]
    constructor
    · rintro ⟨seps, rest, heq, hx⟩
      exact ⟨seps, rest, by rw [hl, heq], hx⟩
    · rintro ⟨seps, rest, heq, hx⟩
      refine ⟨seps, rest, ?_, hx⟩
      have : l.drop 4 = (['c', 'h', 'a', 'p'] ++ (seps ++ (d1 ++ '_' :: (d2 ++ rest)))).drop 4 := by
        rw [← heq]
      rw [this, chap_drop4]
  · rw [if_neg h4]
    constructor
    · intro h; cases h
    · rintro ⟨seps, rest, heq, hx⟩
      exfalso
      apply h4
      rw [heq]
      exact chap_take4 _

theorem matchChapAt_none_iff (l : List Char) :
    matchChapAt l = none ↔ ∀ d1 d2, ¬ ChapPatternAt l d1 d2 := by
  cases hm : matchChapAt l with
  | some r =>
    constructor
    · intro h; cases h
    · intro h
      exact absurd ((matchChapAt_some_iff l r.1 r.2).mp (by rw [hm])) (h r.1 r.2)
  | none =>
    constructor
    · intro _ d1 d2 hpat
      have := (matchChapAt_some_iff l d1 d2).mpr hpat
      rw [hm] at this
      cases this
    · intro _; rfl

theorem findChap_some_iff :
    ∀ (l : List Char) (d1 d2 : List Char),
      findChap l = some (d1, d2) ↔
        ∃ n, matchChapAt (l.drop n) = some (d1, d2)
          ∧ ∀ m, m < n → matchChapAt (l.drop m) = none := by
  intro l
  induction l with
  | nil =>
    intro d1 d2
    constructor
    · intro h; cases h
    · rintro ⟨n, hn, -⟩
      rw [List.drop_nil] at hn
      cases hn
  | cons c t ih =>
    intro d1 d2
    cases hm : matchChapAt (c :: t) with
    | some r =>
      have hf : findChap (c :: t) = some r := by
        unfold findChap; rw [hm]
      rw [hf]
      constructor
      · intro h
        refine ⟨0, ?_, ?_⟩
        · rw [List.drop_zero, hm, h]
        · intro m hmlt; cases hmlt
      · rintro ⟨n, hn, hall⟩
        cases n with
        | zero =>
          rw [List.drop_zero, hm] at hn
          exact hn
        | succ k =>
          have h0 := hall 0 (Nat.succ_pos k)
          rw [List.drop_zero, hm] at h0
          cases h0
    | none =>
      have hf : findChap (c :: t) = findChap t := by
        conv_lhs => unfold findChap
        rw [hm]
      rw [hf, ih d1 d2]
      constructor
      · rintro ⟨n, hn, hall⟩
        refine ⟨n + 1, ?_, ?_⟩
        · rwa [List.drop_succ_cons]
        · intro m hmlt
          cases m with
          | zero => rw [List.drop_zero]; exact hm
          | succ k =>
            rw [List.drop_succ_cons]
            exact hall k (Nat.lt_of_succ_lt_succ hmlt)
      · rintro ⟨n, hn, hall⟩
        cases n with
        | zero =>
          rw [List.drop_zero, hm] at hn
          cases hn
        | succ k =>
          refine ⟨k, ?_, ?_⟩
          · rwa [List.drop_succ_cons] at hn
          · intro m hmlt
            have := hall (m + 1) (Nat.succ_lt_succ hmlt)
            rwa [List.drop_succ_cons] at this

theorem matchChapAt_nil : matchChapAt [] = none := rfl

theorem findChap_none_iff :
    ∀ l : List Char, findChap l = none ↔ ∀ n, matchChapAt (l.drop n) = none := by
  intro l
  induction l with
  | nil =>
    constructor
    · intro _ n
      rw [List.drop_nil]
      rfl
    · intro _; rfl
  | cons c t ih =>
    cases hm : matchChapAt (c :: t) with
    | some r =>
      have hf : findChap (c :: t) = some r := by
        unfold findChap; rw [hm]
      rw [hf]
      constructor
      · intro h; cases h
      · intro h
        have h0 := h 0
        rw [List.drop_zero, hm] at h0
        cases h0
    | none =>
      have hf : findChap (c :: t) = findChap t := by
        conv_lhs => unfold findChap
        rw [hm]
      rw [hf, ih]
      constructor
      · intro h n
        cases n with
        | zero => rw [List.drop_zero]; exact hm
        | succ k => rw [List.drop_succ_cons]; exact h k
      · intro h n
        have := h (n + 1)
        rwa [List.drop_succ_cons] at this

-- Characterization of the prompt matcher -------------------------------------

theorem findFirstMatch_eq_find? (fid : List Char × List Char) :
    ∀ entries : List PromptEntry,
      findFirstMatch fid entries = (entries.find? (recordMatches fid)).map recordText := by
  intro entries
  induction entries with
  | nil => rfl
  | cons e rest ih =>
    cases hsp : splitParts e.outputAi with
    | none =>
      have hm : ¬ recordMatches fid e = true := by
        simp only [recordMatches, hsp]
        simp
      rw [List.find?_cons_of_neg _ hm]
      simp only [findFirstMatch, hsp]
      exact ih
    | some parts =>
      obtain ⟨pre, post⟩ := parts
      cases hfc : findChap (toLowerList (trimJs post)) with
      | none =>
        have hm : ¬ recordMatches fid e = true := by
          simp only [recordMatches, hsp, hfc]
          simp
        rw [List.find?_cons_of_neg _ hm]
        simp only [findFirstMatch, hsp, hfc]
        exact ih
      | some jid =>
        by_cases heq : jid = fid
        · have hm : recordMatches fid e = true := by
            simp only [recordMatches, hsp, hfc]
            simp [heq]
          rw [List.find?_cons_of_pos _ hm]
          simp only [findFirstMatch, hsp, hfc, if_pos heq]
          simp only [Option.map_some', recordText, hsp]
        · have hm : ¬ recordMatches fid e = true := by
            simp only [recordMatches, hsp, hfc]
            simp [heq]
          rw [List.find?_cons_of_neg _ hm]
          simp only [findFirstMatch, hsp, hfc, if_neg heq]
          exact ih

-- Claim theorems --------------------------------------------------------------

/-- Claim C1 (amended).  After the filename is cleaned (every case-insensitive
_compressed marker removed, one trailing image extension removed, the result
lower-cased), the extractor returns the two digit captures of the first
position, scanning left to right, at which the pattern holds: the literal
chap, a possibly empty run of underscore or whitespace separators, a maximal
nonempty digit run, one single underscore, a maximal nonempty digit run.  It
returns nothing exactly when no position of the cleaned name matches that
pattern.  (The identifier the claim speaks of is the integer pair the two
digit captures denote.) -/
theorem chapter_extractor_first_match (name : String) :
    (∀ d1 d2 : List Char,
      findChap (cleanImageName name) = some (d1, d2) ↔
        ∃ n, ChapPatternAt ((cleanImageName name).drop n) d1 d2
          ∧ ∀ m, m < n → ∀ e1 e2, ¬ ChapPatternAt ((cleanImageName name).drop m) e1 e2)
    ∧ (findChap (cleanImageName name) = none ↔
        ∀ n d1 d2, ¬ ChapPatternAt ((cleanImageName name).drop n) d1 d2) := by
  constructor
  · intro d1 d2
    rw [findChap_some_iff]
    constructor
    · rintro ⟨n, hn, hall⟩
      refine ⟨n, (matchChapAt_some_iff _ _ _).mp hn, ?_⟩
      intro m hm e1 e2 hpat
      have h2 := (matchChapAt_some_iff _ e1 e2).mpr hpat
      rw [hall m hm] at h2
      cases h2
    · rintro ⟨n, hn, hall⟩
      exact ⟨n, (matchChapAt_some_iff _ _ _).mpr hn,
        fun m hm => (matchChapAt_none_iff _).mpr (fun e1 e2 => hall m hm e1 e2)⟩
  · rw [findChap_none_iff]
    constructor
    · intro h n d1 d2
      exact ((matchChapAt_none_iff _).mp (h n)) d1 d2
    · intro h n
      exact (matchChapAt_none_iff _).mpr (fun d1 d2 => h n d1 d2)

/-- Claim C1 counterexample.  The filename chap_1 2.png contains, after
cleaning, the chap keyword followed by the integers 1 and 2 joined by a
whitespace separator, a separator style the claim admits between the two
integers, yet the extractor returns nothing: the source regex accepts only a
single underscore between the two captures. -/
theorem chapter_extractor_space_separator_cex :
    SpecChapPatternAt (cleanImageName "chap_1 2.png") ['1'] ['2']
    ∧ findChap (cleanImageName "chap_1 2.png") = none := by
  constructor
  · exact ⟨['_'], [' '], [], by decide, by decide, by decide, by decide,
      by decide, by decide, by decide, by decide⟩
  · decide

/-- Claim C2 (amended).  The matcher is the pure function of the filename and
the record list that: extracts the filename's chapter digit pair; returns
nothing when there is none; otherwise returns, for the first record in list
order that carries the delimiter and whose post-delimiter chapter digit pair
equals the filename's digit pair literally (records without delimiter or
without a chapter pattern are skipped), that record's pre-delimiter segment
trimmed of surrounding whitespace; and nothing when no record matches.
First match in list order means a later record with the same chapter tag can
never override an earlier one. -/
theorem matchPrompt_first_match (name : String) (entries : List PromptEntry) :
    matchPromptToImage name entries =
      (findChap (cleanImageName name)).bind
        (fun fid => (entries.find? (recordMatches fid)).map recordText) := by
  unfold matchPromptToImage
  cases hfc : findChap (cleanImageName name) with
  | none => cases entries <;> simp
  | some fid =>
    cases entries with
    | nil => simp
    | cons e rest =>
      simp only [List.isEmpty_cons, Option.some_bind]
      rw [if_neg (by simp)]
      exact findFirstMatch_eq_find? fid (e :: rest)

/-- Claim C2 counterexample.  The filename chap_01_2.png and the record
"hello || chap_1_2" carry the same chapter identifier as the integer pair
the specification defines, namely (1, 2), and the record is the first (and
only) one of the list; the claim therefore requires the match to return the
record's prompt text, but the source compares the raw digit strings 01_2 and
1_2 and returns nothing. -/
theorem matchPrompt_leading_zero_cex :
    imageNumericId "chap_01_2.png" = some (1, 2)
    ∧ recordNumericId (PromptEntry.mk "hello || chap_1_2") = some (1, 2)
    ∧ matchPromptToImage "chap_01_2.png" [PromptEntry.mk "hello || chap_1_2"] = none := by
  refine ⟨by decide, by decide, by decide⟩

-- Review ledger lemmas --------------------------------------------------------

theorem qcLt_get?_some {α : Type} :
    ∀ (l : List α) (i : Nat), i < l.length → ∃ x, l.get? i = some x := by
  intro l
  induction l with
  | nil => intro i h; cases h
  | cons a t ih =>
    intro i h
    cases i with
    | zero => exact ⟨a, rfl⟩
    | succ k => exact ih k (Nat.lt_of_succ_lt_succ h)

theorem AppState_eq (a b : AppState)
    (h1 : a.currentView = b.currentView) (h2 : a.backendUrl = b.backendUrl)
    (h3 : a.images = b.images) (h4 : a.promptData = b.promptData)
    (h5 : a.qcIndex = b.qcIndex) (h6 : a.compareMode = b.compareMode) : a = b := by
  cases a; cases b; simp_all

theorem approveCurrent_images (s : AppState) :
    (approveCurrent s).images
      = updateAt s.images s.qcIndex (fun img => { img with status := QCStatus.approved }) := rfl

theorem approveCurrent_qcIndex (s : AppState) :
    (approveCurrent s).qcIndex
      = if s.qcIndex < s.images.length - 1 then s.qcIndex + 1 else s.qcIndex := rfl

theorem approve_status_idem :
    ∀ x : QCImage,
      (fun img => { img with status := QCStatus.approved })
        ((fun img => { img with status := QCStatus.approved }) x)
      = (fun img => { img with status := QCStatus.approved }) x := fun _ => rfl

/-- Claim C3.  Approving the same item twice yields the same ledger as
approving it once and moves the active index only once.  The first two
conjuncts treat the general re-approval: after the first approval the same
item is selected again (the auto-advance, when it fires, moves off the item,
so re-selecting is the only way to target it twice) and approved again: the
image list and the active index equal those after the single approval.  The
third conjunct states the approved status itself.  The last conjunct is the
strict twice-in-a-row case, realizable exactly when no next item exists: the
whole state is then unchanged by the second call. -/
theorem approve_idempotent (s : AppState) (h : s.qcIndex < s.images.length) :
    ((approveCurrent (selectImage (approveCurrent s) s.qcIndex)).images
        = (approveCurrent s).images)
    ∧ ((approveCurrent (selectImage (approveCurrent s) s.qcIndex)).qcIndex
        = (approveCurrent s).qcIndex)
    ∧ (∃ img, (approveCurrent s).images.get? s.qcIndex = some img
        ∧ img.status = QCStatus.approved)
    ∧ (s.images.length ≤ s.qcIndex + 1 →
        approveCurrent (approveCurrent s) = approveCurrent s) := by
  refine ⟨?_, ?_, ?_, ?_⟩
  · show updateAt (updateAt s.images s.qcIndex _) s.qcIndex _
        = updateAt s.images s.qcIndex _
    exact updateAt_updateAt _ _ _ approve_status_idem
  · show (if s.qcIndex < (updateAt s.images s.qcIndex _).length - 1
        then s.qcIndex + 1 else s.qcIndex)
      = if s.qcIndex < s.images.length - 1 then s.qcIndex + 1 else s.qcIndex
    rw [updateAt_length]
  · obtain ⟨x, hx⟩ := qcLt_get?_some s.images s.qcIndex h
    refine ⟨{ x with status := QCStatus.approved }, ?_, rfl⟩
    show (updateAt s.images s.qcIndex _).get? s.qcIndex = _
    rw [updateAt_get?_self, hx]
    rfl
  · intro hle
    have hnot : ¬ s.qcIndex < s.images.length - 1 := by omega
    have hq1 : (approveCurrent s).qcIndex = s.qcIndex := by
      rw [approveCurrent_qcIndex, if_neg hnot]
    apply AppState_eq
    · rfl
    · rfl
    · rw [approveCurrent_images, approveCurrent_images, hq1,
        updateAt_updateAt _ _ _ approve_status_idem]
    · rfl
    · rw [approveCurrent_qcIndex (approveCurrent s), hq1, approveCurrent_images,
        updateAt_length, if_neg hnot]
    · rfl

/-- Claim C3 witness at a concrete two-item ledger with the first item
active. -/
theorem approve_idempotent_witness :
    ((approveCurrent (selectImage (approveCurrent baseState) baseState.qcIndex)).images
        = (approveCurrent baseState).images)
    ∧ ((approveCurrent (selectImage (approveCurrent baseState) baseState.qcIndex)).qcIndex
        = (approveCurrent baseState).qcIndex)
    ∧ (∃ img, (approveCurrent baseState).images.get? baseState.qcIndex = some img
        ∧ img.status = QCStatus.approved)
    ∧ (baseState.images.length ≤ baseState.qcIndex + 1 →
        approveCurrent (approveCurrent baseState) = approveCurrent baseState) :=
  approve_idempotent baseState (by decide)

theorem regenerate_fail (s : AppState) : handleRegenerate s false = s := by
  unfold handleRegenerate
  cases h : s.images.get? s.qcIndex with
  | none => rfl
  | some c => by_cases hb : s.backendUrl = "" <;> simp [hb]

/-- Claim C4.  With a current item on screen and a configured backend, a
completed regeneration replaces the item by one whose oldUrl is the url it
had just before, whose url is the service's locator (the demo passes the
current url back) and whose status is pending, whatever the previous status
was; a failed regeneration changes nothing at all, so a failure right after
a successful regeneration leaves the state exactly as that success left
it. -/
theorem regenerate_spec (s : AppState) (current : QCImage)
    (h : s.images.get? s.qcIndex = some current) (hb : s.backendUrl ≠ "") :
    ((handleRegenerate s true).images.get? s.qcIndex
        = some { current with
                 oldUrl := some current.url, url := current.url,
                 status := QCStatus.pending })
    ∧ handleRegenerate s false = s
    ∧ handleRegenerate (handleRegenerate s true) false = handleRegenerate s true := by
  have h1 : handleRegenerate s true
      = { s with
          images := s.images.set s.qcIndex
            { current with
              oldUrl := some current.url, url := current.url,
              status := QCStatus.pending },
          compareMode := true } := by
    unfold handleRegenerate
    simp only [h]
    rw [if_neg hb, if_pos trivial]
  refine ⟨?_, regenerate_fail s, regenerate_fail _⟩
  rw [h1]
  exact qcGet?_set_self _ _ _ (qcGet?_some_lt _ _ _ h)

/-- Claim C4 witness: regenerating the pending first item of the concrete
ledger, then failing. -/
theorem regenerate_spec_witness :
    ((handleRegenerate baseState true).images.get? baseState.qcIndex
        = some { imgA with
                 oldUrl := some imgA.url, url := imgA.url,
                 status := QCStatus.pending })
    ∧ handleRegenerate baseState false = baseState
    ∧ handleRegenerate (handleRegenerate baseState true) false
        = handleRegenerate baseState true :=
  regenerate_spec baseState imgA (by decide) (by decide)

/-- Claim C5.  A malformed prompt-dataset load is rejected whole: the state
(dataset and every review item) is exactly what it was, and the user sees
the error alert. -/
theorem jsonUpload_malformed_atomic (s : AppState) (err : String) :
    (handleJSONUpload s (Except.error err)).1 = s
    ∧ (handleJSONUpload s (Except.error err)).2 = "Invalid JSON file." :=
  ⟨rfl, rfl⟩

theorem foldl_editPrompt_get? :
    ∀ (edits : List String) (s : AppState) (img : QCImage),
      s.images.get? s.qcIndex = some img →
      (edits.foldl editPrompt s).qcIndex = s.qcIndex
      ∧ ∃ p, (edits.foldl editPrompt s).images.get? s.qcIndex
          = some { img with prompt := p } := by
  intro edits
  induction edits with
  | nil =>
    intro s img h
    refine ⟨rfl, img.prompt, ?_⟩
    rw [List.foldl_nil, h]
  | cons t ts ih =>
    intro s img h
    have h1 : (editPrompt s t).images.get? (editPrompt s t).qcIndex
        = some { img with prompt := t } := by
      show (updateAt s.images s.qcIndex _).get? s.qcIndex = _
      rw [updateAt_get?_self, h]
      rfl
    obtain ⟨hq, p, hp⟩ := ih (editPrompt s t) { img with prompt := t } h1
    have hq' : (editPrompt s t).qcIndex = s.qcIndex := rfl
    rw [hq'] at hp
    rw [List.foldl_cons]
    refine ⟨hq, p, ?_⟩
    rw [hp]

/-- Claim C6.  After any finite sequence of edits to the current item's
prompt, the reset restores exactly the originalPrompt assigned at
import/match time; and a single edit never touches the item's status or its
originalPrompt. -/
theorem resetPrompt_roundtrip (s : AppState) (edits : List String) (img : QCImage)
    (h : s.images.get? s.qcIndex = some img) :
    ((resetPrompt (edits.foldl editPrompt s)).images.get? s.qcIndex
        = some { img with prompt := img.originalPrompt })
    ∧ (∀ t : String,
        ((editPrompt s t).images.get? s.qcIndex).map QCImage.status = some img.status
        ∧ ((editPrompt s t).images.get? s.qcIndex).map QCImage.originalPrompt
            = some img.originalPrompt) := by
  obtain ⟨hq, p, hp⟩ := foldl_editPrompt_get? edits s img h
  constructor
  · show (updateAt (edits.foldl editPrompt s).images (edits.foldl editPrompt s).qcIndex
        _).get? s.qcIndex = _
    rw [hq, updateAt_get?_self, hp]
    obtain ⟨i0, u0, o0, n0, p0, op0, st0⟩ := img
    rfl
  · intro t
    constructor
    · show ((updateAt s.images s.qcIndex _).get? s.qcIndex).map _ = _
      rw [updateAt_get?_self, h]
      rfl
    · show ((updateAt s.images s.qcIndex _).get? s.qcIndex).map _ = _
      rw [updateAt_get?_self, h]
      rfl

/-- Claim C6 witness: two edits then a reset on the concrete ledger. -/
theorem resetPrompt_roundtrip_witness :
    ((resetPrompt (["draft one", "draft two"].foldl editPrompt baseState)).images.get?
        baseState.qcIndex
        = some { imgA with prompt := imgA.originalPrompt })
    ∧ (∀ t : String,
        ((editPrompt baseState t).images.get? baseState.qcIndex).map QCImage.status
            = some imgA.status
        ∧ ((editPrompt baseState t).images.get? baseState.qcIndex).map
              QCImage.originalPrompt
            = some imgA.originalPrompt) :=
  resetPrompt_roundtrip baseState ["draft one", "draft two"] imgA (by decide)

-- Scene analyzer theorems -----------------------------------------------------

theorem detectCharacters_eq_filter (prompt : String) :
    detectCharactersFromPrompt prompt
      = (characterRoster (lowerStr prompt)).filter (characterPresent (lowerStr prompt)) := by
  by_cases hp : prompt = ""
  · subst hp
    decide
  · have eMC : characterPresent (lowerStr prompt)
        (Character.mk "MC" (detectOutfit (lowerStr prompt)))
        = strContains (lowerStr prompt) "mc" := by
      unfold characterPresent strContains
      rw [show toLowerList "MC".data = "mc".data from by decide]
    have eRaka : characterPresent (lowerStr prompt)
        (Character.mk "Raka" (detectOutfit (lowerStr prompt)))
        = strContains (lowerStr prompt) "raka" := by
      unfold characterPresent strContains
      rw [show toLowerList "Raka".data = "raka".data from by decide]
    have eAlina : characterPresent (lowerStr prompt)
        (Character.mk "Alina" (detectOutfit (lowerStr prompt)))
        = strContains (lowerStr prompt) "alina" := by
      unfold characterPresent strContains
      rw [show toLowerList "Alina".data = "alina".data from by decide]
    have eAruna : characterPresent (lowerStr prompt) (Character.mk "Aruna" "default")
        = strContains (lowerStr prompt) "aruna" := by
      unfold characterPresent strContains
      rw [show toLowerList "Aruna".data = "aruna".data from by decide]
    unfold detectCharactersFromPrompt characterRoster
    rw [if_neg hp]
    cases hmc : strContains (lowerStr prompt) "mc" <;>
    cases hraka : strContains (lowerStr prompt) "raka" <;>
    cases halina : strContains (lowerStr prompt) "alina" <;>
    cases haruna : strContains (lowerStr prompt) "aruna" <;>
      simp [List.filter_cons, eMC, eRaka, eAlina, eAruna, hmc, hraka, halina, haruna]

/-- Claim C7.  The detected characters are exactly the present members of the
fixed roster MC, Raka, Alina, Aruna, in that fixed order whatever the order
of the names in the text (first conjunct); the names list never repeats a
character (second); a detected Aruna always wears the default outfit
(third); a prompt in which no roster name is present yields the empty list
(fourth); and the example of the specification, in both name orders
(fifth and sixth). -/
theorem detectCharacters_fixed_order (prompt : String) :
    (detectCharactersFromPrompt prompt
        = (characterRoster (lowerStr prompt)).filter (characterPresent (lowerStr prompt)))
    ∧ ((detectCharactersFromPrompt prompt).map Character.name).Nodup
    ∧ (∀ c ∈ detectCharactersFromPrompt prompt, c.name = "Aruna" → c.outfit = "default")
    ∧ ((∀ c ∈ characterRoster (lowerStr prompt),
          characterPresent (lowerStr prompt) c = false) →
        detectCharactersFromPrompt prompt = [])
    ∧ detectCharactersFromPrompt "MC and Raka in formal"
        = [Character.mk "MC" "formal", Character.mk "Raka" "formal"]
    ∧ detectCharactersFromPrompt "Raka and MC in formal"
        = [Character.mk "MC" "formal", Character.mk "Raka" "formal"] := by
  have hfe := detectCharacters_eq_filter prompt
  refine ⟨hfe, ?_, ?_, ?_, by decide, by decide⟩
  · rw [hfe]
    have hsub : List.Sublist
        (((characterRoster (lowerStr prompt)).filter
            (characterPresent (lowerStr prompt))).map Character.name)
        ((characterRoster (lowerStr prompt)).map Character.name) :=
      (List.filter_sublist _).map _
    refine List.Nodup.sublist hsub ?_
    show (["MC", "Raka", "Alina", "Aruna"] : List String).Nodup
    decide
  · intro c hc hname
    rw [hfe] at hc
    have hmem : c ∈ characterRoster (lowerStr prompt) := List.mem_of_mem_filter hc
    unfold characterRoster at hmem
    simp only [List.mem_cons, List.not_mem_nil, or_false] at hmem
    rcases hmem with h1 | h1 | h1 | h1 <;> subst h1 <;> simp_all
  · intro hall
    rw [hfe]
    exact List.filter_eq_nil_iff.mpr (fun a ha => by rw [hall a ha]; exact Bool.false_ne_true)

/-- Claim C8.  The VIP test precedes the hospital test: a prompt whose
lower-cased text contains vip is classified hospital_vip, so one containing
both vip and hospital is never classified hospital_regular. -/
theorem detectSetting_vip_priority (prompt : String)
    (hv : strContains (lowerStr prompt) "vip" = true)
    (hh : strContains (lowerStr prompt) "hospital" = true) :
    detectSettingFromPrompt prompt = "hospital_vip"
    ∧ detectSettingFromPrompt prompt ≠ "hospital_regular" := by
  by_cases hp : prompt = ""
  · subst hp
    exact absurd hv (by decide)
  · constructor
    · unfold detectSettingFromPrompt
      rw [if_neg hp, if_pos hv]
    · unfold detectSettingFromPrompt
      rw [if_neg hp, if_pos hv]
      decide

/-- Claim C8 witness at the prompt "VIP hospital room". -/
theorem detectSetting_vip_priority_witness :
    detectSettingFromPrompt "VIP hospital room" = "hospital_vip"
    ∧ detectSettingFromPrompt "VIP hospital room" ≠ "hospital_regular" :=
  detectSetting_vip_priority "VIP hospital room" (by decide) (by decide)

-- Image import and id uniqueness ----------------------------------------------

theorem mem_buildImages (pd : List PromptEntry) :
    ∀ (fs : List ImportFile) (idx : Nat) (img : QCImage),
      img ∈ buildImages pd fs idx →
        ∃ f ∈ fs, ∃ k, idx ≤ k ∧ img.id = f.now + k := by
  intro fs
  induction fs with
  | nil => intro idx img h; cases h
  | cons f rest ih =>
    intro idx img h
    rcases List.mem_cons.mp h with h1 | h1
    · exact ⟨f, List.mem_cons_self f rest, idx, Nat.le_refl idx, by rw [h1]; rfl⟩
    · obtain ⟨g, hg, k, hk, hid⟩ := ih (idx + 1) img h1
      exact ⟨g, List.mem_cons_of_mem f hg, k, Nat.le_of_succ_le hk, hid⟩

theorem buildImages_ids_pairwise (pd : List PromptEntry) :
    ∀ (fs : List ImportFile) (idx : Nat),
      List.Pairwise (· ≤ ·) (fs.map ImportFile.now) →
      List.Pairwise (· < ·) ((buildImages pd fs idx).map QCImage.id) := by
  intro fs
  induction fs with
  | nil => intro idx _; exact List.Pairwise.nil
  | cons f rest ih =>
    intro idx hp
    rw [List.map_cons] at hp
    obtain ⟨hhead, htail⟩ := List.pairwise_cons.mp hp
    show List.Pairwise (· < ·) ((mkImage pd f idx).id :: (buildImages pd rest (idx + 1)).map QCImage.id)
    apply List.pairwise_cons.mpr
    refine ⟨?_, ih (idx + 1) htail⟩
    intro b hb
    obtain ⟨img, himg, hbid⟩ := List.mem_map.mp hb
    obtain ⟨g, hg, k, hk, hid⟩ := mem_buildImages pd rest (idx + 1) img himg
    have hnow : f.now ≤ g.now := hhead g.now (List.mem_map_of_mem ImportFile.now hg)
    rw [← hbid, hid]
    show (mkImage pd f idx).id < g.now + k
    show f.now + idx < g.now + k
    omega

/-- Claim C9 counterexample.  Two import batches whose clock readings are
nondecreasing (100, 100, then 101) produce ids 100, 101 and then 101 again:
the timestamp-plus-index scheme collides across batches, so ids are not
unique over the ledger. -/
theorem import_id_collision :
    List.Pairwise (· ≤ ·) ((cexBatch1 ++ cexBatch2).map ImportFile.now)
    ∧ ¬ (((handleImageUpload (handleImageUpload emptyState cexBatch1) cexBatch2).images.map
          QCImage.id).Nodup) := by
  constructor
  · decide
  · decide

/-- Claim C9 (amended).  Within one batch the ids timestamp-plus-index are
strictly increasing whenever the per-file clock readings are nondecreasing,
hence unique; and uniqueness extends over the whole ledger provided every
reading of the new batch is strictly larger than every id already present.
Without that freshness margin two batches can collide (see the
counterexample). -/
theorem import_ids_unique (s : AppState) (files : List ImportFile)
    (hs : (s.images.map QCImage.id).Nodup)
    (hmono : List.Pairwise (· ≤ ·) (files.map ImportFile.now))
    (hfresh : ∀ img ∈ s.images, ∀ f ∈ files, img.id < f.now) :
    ((handleImageUpload s files).images.map QCImage.id).Nodup := by
  show ((s.images ++ buildImages s.promptData files 0).map QCImage.id).Nodup
  rw [List.map_append]
  have hnew : List.Pairwise (· < ·) ((buildImages s.promptData files 0).map QCImage.id) :=
    buildImages_ids_pairwise s.promptData files 0 hmono
  apply List.Nodup.append hs (hnew.imp (fun hab => Nat.ne_of_lt hab))
  intro a ha hb
  obtain ⟨imga, hmema, hida⟩ := List.mem_map.mp ha
  obtain ⟨imgb, hmemb, hidb⟩ := List.mem_map.mp hb
  obtain ⟨g, hg, k, _, hid⟩ := mem_buildImages s.promptData files 0 imgb hmemb
  have h1 : imga.id < g.now := hfresh imga hmema g hg
  have h2 : a = imga.id := hida.symm
  have h3 : a = g.now + k := by rw [← hidb, hid]
  omega

/-- Claim C9 witness: a ledger holding ids 1 and 2 receives a batch of two
files read at time 10; all five hypotheses hold and the resulting ids are
unique. -/
theorem import_ids_unique_witness :
    ((handleImageUpload baseState importFilesW).images.map QCImage.id).Nodup :=
  import_ids_unique baseState importFilesW (by decide) (by decide) (by decide)

/-- Claim C10.  When a freshly parsed dataset is applied, an existing item
whose filename finds no match in the new records is returned exactly as it
was: prompt (edited or not), originalPrompt, status, urls, everything. -/
theorem jsonUpload_nomatch_frame (s : AppState) (data : List PromptEntry)
    (i : Nat) (img : QCImage) (h : s.images.get? i = some img)
    (hm : matchPromptToImage img.name data = none) :
    (handleJSONUpload s (Except.ok data)).1.images.get? i = some img := by
  show ((s.images.map (remapImage data)).get? i) = some img
  rw [qcGet?_map, h]
  show some (remapImage data img) = some img
  unfold remapImage
  rw [hm]

/-- Claim C10 witness: loading an empty dataset over the concrete ledger
leaves the first item untouched. -/
theorem jsonUpload_nomatch_frame_witness :
    (handleJSONUpload baseState (Except.ok [])).1.images.get? 0 = some imgA :=
  jsonUpload_nomatch_frame baseState [] 0 imgA (by decide) (by decide)
